import Mathlib

/-!
Verification of the A-SABR routing core against its specification.

This file gives a shallow embedding, in Lean 4, of the parts of the A-SABR
source that the checked properties talk about:

* the priority volume contact managers generated by the
  generate_prio_volume_manager macro of src/contact_manager/legacy/mod.rs
  (EVLManager, QDManager, ETOManager and their priority variants), together
  with the manual queue methods of impl_manual_queue_methods_prio;
* the scalar-queue manual methods of impl_struct_conditional_methods of
  src/contact_manager/mod.rs;
* the SegmentationManager of src/contact_manager/seg.rs;
* the SPSN unicast Guard of src/route_storage/mod.rs;
* Receiver.lazy_prune_and_get_first_idx of src/multigraph.rs;
* try_make_hop of src/pathfinding/mod.rs;
* the unicast dry-run and committing traversals of src/routing/mod.rs;
* the contact-suppression wrapper of src/pathfinding/limiting_contact/mod.rs
  and the work-area bookkeeping of src/pathfinding/contact_graph.rs;
* the SPSN route dispatch and multicast pipeline of src/routing/spsn.rs and
  src/routing/mod.rs.

Modelling conventions.  The source represents dates, durations, volumes and
rates as f32; the embedding uses ℚ so that the arithmetic of the algorithms
is exact (all checked properties are algebraic; none depends on rounding).
Node ids, priorities and hop counts are ℕ.  Rust functions that can panic
are embedded as Option- or sum-valued functions in which the panic branch is
an explicit constructor; each such spot is noted next to its definition.
Rust slice indexing is embedded with List.getD; every theorem that relies on
an index being in range carries that bound as a hypothesis or works on
concrete in-range data.
-/

namespace ASabr

/-- The routing bundle of src/bundle.rs (source, destinations, priority,
size, expiration). -/
structure Bundle where
  source : ℕ
  destinations : List ℕ
  priority : ℕ
  size : ℚ
  expiration : ℚ
  deriving Repr, DecidableEq

/-- Contact window data of src/contact.rs (ContactInfo).  The Rust field
named end is called end_ here because end is a Lean keyword. -/
structure ContactInfo where
  tx_node : ℕ
  rx_node : ℕ
  start : ℚ
  end_ : ℚ
  deriving Repr, DecidableEq

/-- The transmission descriptor returned by the contact managers
(ContactManagerTxData in src/contact_manager/mod.rs, TxEndHopData in the
files that use the older name). -/
structure TxData where
  tx_start : ℚ
  tx_end : ℚ
  delay : ℚ
  expiration : ℚ
  arrival : ℚ
  deriving Repr, DecidableEq

/-! ## Priority volume managers (src/contact_manager/legacy/mod.rs)

The macro generate_prio_volume_manager produces one struct per manager
(EVLManager, QDManager, ETOManager, ...); they differ only in the two
boolean macro parameters add_delay and auto_update and in the length of the
queue_size array.  The embedding keeps one structure and passes the two
booleans explicitly:
  EVL = dry_run_tx false true,  QD = dry_run_tx true true,
  ETO = dry_run_tx true false. -/

/-- State of a generate_prio_volume_manager manager: rate, delay, the
per-priority booked volumes and the total volume at initialization. -/
structure PrioVolMgr where
  rate : ℚ
  delay : ℚ
  queue_size : List ℚ
  original_volume : ℚ
  deriving Repr, DecidableEq

/-- PrioVolMgr::new of the macro: zero queues, zero original volume. -/
def PrioVolMgr.new (rate delay : ℚ) (count : ℕ) : PrioVolMgr :=
  { rate := rate, delay := delay,
    queue_size := List.replicate count 0, original_volume := 0 }

/-- The loop `for p in 0..bundle.priority+1 { queue_size[p] += size }` used
by schedule_tx, enqueue and dequeue of the priority managers. -/
def bumpQueues (l : List ℚ) (p : ℕ) (v : ℚ) : List ℚ :=
  l.mapIdx fun i x => if i ≤ p then x + v else x

/-- dry_run_tx of generate_prio_volume_manager
(src/contact_manager/legacy/mod.rs lines 324-363), with the two macro
booleans as arguments.  Rust indexes queue_size[bundle.priority]; the
embedding reads it with getD 0 (all uses below are in range). -/
def PrioVolMgr.dry_run_tx (add_delay auto_update : Bool) (m : PrioVolMgr)
    (contact_data : ContactInfo) (at_time : ℚ) (bundle : Bundle) :
    Option TxData :=
  let q := m.queue_size.getD bundle.priority 0
  if m.original_volume - q < bundle.size then none
  else
    -- add_delay case 1: if not eto, the eto is pushed from the contact start
    let contact_start :=
      if auto_update && add_delay then contact_data.start + q / m.rate
      else contact_data.start
    let ts0 := if at_time < contact_start then contact_start else at_time
    -- add_delay case 2: eto, bundles are still in queue
    let tx_start := if !auto_update && add_delay then ts0 + q / m.rate else ts0
    let tx_end := tx_start + bundle.size / m.rate
    if contact_data.end_ < tx_end then none
    else some { tx_start := tx_start, tx_end := tx_end, delay := m.delay,
                expiration := contact_data.end_, arrival := m.delay + tx_end }

/-- schedule_tx of generate_prio_volume_manager
(src/contact_manager/legacy/mod.rs lines 379-396): a dry run, then, when
auto_update holds, the booked volumes at priorities 0..=bundle.priority grow
by bundle.size.  The updated manager is returned alongside the data. -/
def PrioVolMgr.schedule_tx (add_delay auto_update : Bool) (m : PrioVolMgr)
    (contact_data : ContactInfo) (at_time : ℚ) (bundle : Bundle) :
    Option (TxData × PrioVolMgr) :=
  match m.dry_run_tx add_delay auto_update contact_data at_time bundle with
  | some data =>
      some (data,
        if auto_update then
          { m with queue_size := bumpQueues m.queue_size bundle.priority bundle.size }
        else m)
  | none => none

/-- try_init of generate_prio_volume_manager
(src/contact_manager/legacy/mod.rs lines 407-413): sets original_volume to
(end - start) * rate and then assigns original_volume to every entry of
queue_size, exactly as the source loop does. -/
def PrioVolMgr.try_init (m : PrioVolMgr) (contact_data : ContactInfo) :
    Bool × PrioVolMgr :=
  let ov := (contact_data.end_ - contact_data.start) * m.rate
  (true, { m with original_volume := ov,
                  queue_size := m.queue_size.map fun _ => ov })

/-- enqueue of impl_manual_queue_methods_prio
(src/contact_manager/legacy/mod.rs lines 251-258).  The source aborts when
the queue would overflow the contact volume; that branch is none here. -/
def PrioVolMgr.enqueue (m : PrioVolMgr) (bundle : Bundle) :
    Option PrioVolMgr :=
  if m.original_volume < m.queue_size.getD bundle.priority 0 + bundle.size then
    none
  else
    some { m with queue_size := bumpQueues m.queue_size bundle.priority bundle.size }

/-- dequeue of impl_manual_queue_methods_prio
(src/contact_manager/legacy/mod.rs lines 260-268).  The source aborts when
the queue holds less than the bundle; that branch is none here.  Note that
the source loop ADDS bundle.size to each entry (`+=`), and the embedding
mirrors that exactly. -/
def PrioVolMgr.dequeue (m : PrioVolMgr) (bundle : Bundle) :
    Option PrioVolMgr :=
  if m.queue_size.getD bundle.priority 0 < bundle.size then none
  else
    some { m with queue_size := bumpQueues m.queue_size bundle.priority bundle.size }

/-! ## Scalar-queue manual methods (src/contact_manager/mod.rs)

impl_struct_conditional_methods generates enqueue/dequeue for the managers
with a single scalar queue_size (the non-priority ETOManager of
src/contact_manager/eto.rs). -/

/-- State of a generate_basic_volume_manager manager. -/
structure BasicVolMgr where
  rate : ℚ
  delay : ℚ
  queue_size : ℚ
  original_volume : ℚ
  deriving Repr, DecidableEq

/-- enqueue of impl_struct_conditional_methods
(src/contact_manager/mod.rs): queue_size grows by bundle.size unless it
would overflow original_volume (the abort branch is none). -/
def BasicVolMgr.enqueue (m : BasicVolMgr) (bundle : Bundle) :
    Option BasicVolMgr :=
  if m.original_volume < m.queue_size + bundle.size then none
  else some { m with queue_size := m.queue_size + bundle.size }

/-- dequeue of impl_struct_conditional_methods
(src/contact_manager/mod.rs lines 219-235): queue_size shrinks by
bundle.size unless the queue holds less than the bundle (abort = none). -/
def BasicVolMgr.dequeue (m : BasicVolMgr) (bundle : Bundle) :
    Option BasicVolMgr :=
  if m.queue_size < bundle.size then none
  else some { m with queue_size := m.queue_size - bundle.size }

/-- dry_run_tx of generate_basic_volume_manager
(src/contact_manager/mod.rs): scalar queue; tx start clamps at_time by the
contact start and, when add_delay holds, is pushed by queue/rate. -/
def BasicVolMgr.dry_run_tx (add_delay : Bool) (m : BasicVolMgr)
    (contact_data : ContactInfo) (at_time : ℚ) (bundle : Bundle) :
    Option TxData :=
  if m.original_volume - m.queue_size < bundle.size then none
  else
    let ts0 :=
      if at_time < contact_data.start then contact_data.start else at_time
    let tx_start := if add_delay then ts0 + m.queue_size / m.rate else ts0
    let tx_end := tx_start + bundle.size / m.rate
    if contact_data.end_ < tx_end then none
    else some { tx_start := tx_start, tx_end := tx_end, delay := m.delay,
                expiration := contact_data.end_, arrival := m.delay + tx_end }

/-- schedule_tx of generate_basic_volume_manager
(src/contact_manager/mod.rs): the dry run, then, when auto_update holds,
queue_size grows by bundle.size. -/
def BasicVolMgr.schedule_tx (add_delay auto_update : Bool) (m : BasicVolMgr)
    (contact_data : ContactInfo) (at_time : ℚ) (bundle : Bundle) :
    Option (TxData × BasicVolMgr) :=
  match m.dry_run_tx add_delay contact_data at_time bundle with
  | some data =>
      some (data,
        if auto_update then { m with queue_size := m.queue_size + bundle.size }
        else m)
  | none => none

/-! ## The SPSN unicast guard (src/route_storage/mod.rs) -/

/-- Guard state: the with_priorities flag and the known (destination,
priority) ↦ size-limit map.  The HashMap is embedded as an association
list; insert prepends after erasing the key, and lookup takes the first
match, which agrees with HashMap::insert / HashMap::get. -/
structure Guard where
  with_priorities : Bool
  known_limits : List ((ℕ × ℕ) × ℚ)
  deriving Repr, DecidableEq

/-- HashMap::get on the embedded association list. -/
def Guard.getLimit (g : Guard) (k : ℕ × ℕ) : Option ℚ :=
  (g.known_limits.find? fun e => e.1 = k).map (·.2)

/-- must_abort of Guard (src/route_storage/mod.rs lines 155-171): a
destination counts as unreachable when a limit is recorded for it and
bundle.size < limit; the call aborts when every destination counts. -/
def Guard.must_abort (g : Guard) (bundle : Bundle) : Bool :=
  let p := if g.with_priorities then bundle.priority else 0
  let unreachable_count :=
    (bundle.destinations.filter fun dest =>
      match g.getLimit (dest, p) with
      | some limit => decide (bundle.size < limit)
      | none => false).length
  unreachable_count = bundle.destinations.length

/-- add_limit of Guard (src/route_storage/mod.rs lines 182-194): when a
limit at most bundle.size is already recorded the guard is unchanged,
otherwise bundle.size is inserted for (dest, priority). -/
def Guard.add_limit (g : Guard) (bundle : Bundle) (dest : ℕ) : Guard :=
  let p := if g.with_priorities then bundle.priority else 0
  match g.getLimit (dest, p) with
  | some val =>
      if val ≤ bundle.size then g
      else { g with known_limits :=
               ((dest, p), bundle.size) ::
                 g.known_limits.filter fun e => e.1 ≠ (dest, p) }
  | none =>
      { g with known_limits :=
          ((dest, p), bundle.size) ::
            g.known_limits.filter fun e => e.1 ≠ (dest, p) }

/-! ## Receiver lazy pruning (src/multigraph.rs) -/

/-- A receiver entry of the multigraph: the time-sorted contacts toward the
receiver node and the lazy-prune cursor.  The source stores shared Contact
cells and reads contact.borrow().info.end; the embedding keeps the
ContactInfo values directly. -/
structure Receiver where
  contacts_to_receiver : List ContactInfo
  next : ℕ
  deriving Repr, DecidableEq

/-- The scan inside lazy_prune_and_get_first_idx: walk the contacts from
absolute index i (the list argument is the suffix of the contact list
starting at i, matching enumerate().skip) and return the first index whose
contact end lies strictly after current_time. -/
def firstViableFrom : List ContactInfo → ℕ → ℚ → Option ℕ
  | [], _, _ => none
  | c :: rest, i, t =>
      if t < c.end_ then some i else firstViableFrom rest (i + 1) t

/-- lazy_prune_and_get_first_idx of Receiver (src/multigraph.rs lines
57-65): scan from the cursor; on a hit, move the cursor to the hit and
return its index; otherwise leave the cursor and return none. -/
def Receiver.lazy_prune_and_get_first_idx (r : Receiver) (current_time : ℚ) :
    Receiver × Option ℕ :=
  match firstViableFrom (r.contacts_to_receiver.drop r.next) r.next
      current_time with
  | some i => ({ r with next := i }, some i)
  | none => (r, none)

/-- A sequence of lazy-prune calls: for each time in the list, one call on
the receiver state left by the previous call.  Each trace entry records
(cursor before the call, cursor after the call, returned index). -/
def pruneCalls : Receiver → List ℚ → List (ℕ × ℕ × Option ℕ)
  | _, [] => []
  | r, t :: ts =>
      let res := r.lazy_prune_and_get_first_idx t
      (r.next, res.1.next, res.2) :: pruneCalls res.1 ts

/-! ## try_make_hop (src/pathfinding/mod.rs lines 151-242)

The node-management hooks (dry_run_process, node dry_run_tx / dry_run_rx)
are compiled out unless the enable_node_management feature is on; the
embedding models the default build, in which the sending time is the
sender label's at_time and no node hook filters the hop.  The contact's
manager is abstracted as the dry_run entry point: a function of the
sending time and the bundle. -/

/-- A contact as try_make_hop sees it: suppression flag, window data, and
the manager's dry_run function. -/
structure PContact where
  suppressed : Bool
  info : ContactInfo
  mgrDryRun : ℚ → Bundle → Option TxData

instance : Inhabited PContact :=
  ⟨⟨false, ⟨0, 0, 0, 0⟩, fun _ _ => none⟩⟩

/-- The fields of the sender's RouteStage label that try_make_hop reads. -/
structure ParentStage where
  at_time : ℚ
  hop_count : ℕ
  cumulative_delay : ℚ
  expiration : ℚ
  deriving Repr, DecidableEq

/-- The candidate RouteStage built by try_make_hop (to_node, at_time,
hop_count, cumulative_delay, expiration, plus the index of the via
contact). -/
structure CandidateStage where
  to_node : ℕ
  at_time : ℚ
  hop_count : ℕ
  cumulative_delay : ℚ
  expiration : ℚ
  viaIdx : ℕ
  deriving Repr, DecidableEq

/-- The contact scan of try_make_hop.  The accumulator holds the best
(final_data, index) so far; none stands for the initial sentinel
final_data.arrival = Date::MAX, so the break test
(contact.start > final_data.arrival) is false and the acceptance test
(tx_end + delay < final_data.arrival) is true while no hop was kept. -/
def tryMakeHopLoop (p : ParentStage) (b : Bundle) :
    List PContact → ℕ → Option (TxData × ℕ) → Option (TxData × ℕ)
  | [], _, best => best
  | c :: rest, i, best =>
      if c.suppressed then tryMakeHopLoop p b rest (i + 1) best
      else if (match best with
               | some (fd, _) => decide (fd.arrival < c.info.start)
               | none => false) then
        best
      else
        match c.mgrDryRun p.at_time b with
        | none => tryMakeHopLoop p b rest (i + 1) best
        | some hop =>
            if (match best with
                | some (fd, _) => decide (hop.tx_end + hop.delay < fd.arrival)
                | none => true) then
              tryMakeHopLoop p b rest (i + 1) (some (hop, i))
            else tryMakeHopLoop p b rest (i + 1) best

/-- try_make_hop of src/pathfinding/mod.rs: scan the contacts from the
lazy-prune index, and, when a hop survives, build the candidate RouteStage
with at_time = final_data.arrival, hop_count = parent + 1,
cumulative_delay = parent + hop delay, and
expiration = min(final_data.expiration − parent.cumulative_delay,
parent.expiration). -/
def try_make_hop (first_contact_index : ℕ) (sndr_route : ParentStage)
    (b : Bundle) (contacts : List PContact) : Option CandidateStage :=
  match tryMakeHopLoop sndr_route b (contacts.drop first_contact_index)
      first_contact_index none with
  | none => none
  | some (fd, idx) =>
      some { to_node := (contacts.getD idx default).info.rx_node,
             at_time := fd.arrival,
             hop_count := sndr_route.hop_count + 1,
             cumulative_delay := sndr_route.cumulative_delay + fd.delay,
             expiration := min (fd.expiration - sndr_route.cumulative_delay)
               sndr_route.expiration,
             viaIdx := idx }

/-- Concrete data for exercising try_make_hop: a single live contact whose
manager echoes a legacy-shaped hop starting at the sending time. -/
def demoContact : PContact :=
  ⟨false, ⟨0, 1, 0, 10⟩, fun t _ => some ⟨t, t + 1, 1, 10, t + 1 + 1⟩⟩

/-- Concrete parent label for the try_make_hop witness. -/
def demoParent : ParentStage := ⟨0, 0, 0, 100⟩

/-- Concrete bundle for the try_make_hop witness. -/
def demoBundle : Bundle := ⟨0, [1], 0, 1, 1000⟩

/-! ## SegmentationManager (src/contact_manager/seg.rs)

SEG contacts carry rate and delay segments plus a free-interval list.  The
delay sentinel Duration::MAX of get_delay is embedded as none, and the
tx_end sentinel Date::MAX of get_tx_end as a none accumulator.  The
schedule method of the source can index free_intervals out of bounds; that
panic is the crash constructor of SegSchedResult. -/

/-- A segment of seg.rs: a time interval carrying a value (a rate, a
delay, or nothing for a free interval). -/
structure Segment (T : Type) where
  start : ℚ
  end_ : ℚ
  val : T
  deriving Repr, DecidableEq

/-- SegmentationManager state: free, rate and delay interval lists. -/
structure SegmentationManager where
  free_intervals : List (Segment Unit)
  rate_intervals : List (Segment ℚ)
  delay_intervals : List (Segment ℚ)
  deriving Repr, DecidableEq

/-- get_delay of seg.rs: first delay segment whose end is not before
tx_end; none models the Duration::MAX fallthrough. -/
def SegmentationManager.get_delay (tx_end : ℚ) :
    List (Segment ℚ) → Option ℚ
  | [] => none
  | seg :: rest =>
      if seg.end_ < tx_end then SegmentationManager.get_delay tx_end rest
      else some seg.val

/-- The rate-segment loop of get_tx_end (seg.rs lines 101-118): the
accumulator is the last computed tx_end (none = the Date::MAX initial
value); a segment overflow subtracts rate*(tx_end − at_time) from the
volume and advances at_time to the segment end; a fit zeroes the volume
and stops.  Returns (tx_end accumulator, remaining volume). -/
def getTxEndLoop : List (Segment ℚ) → ℚ → ℚ → Option ℚ → Option ℚ × ℚ
  | [], _, volume, acc => (acc, volume)
  | r :: rest, at_time, volume, acc =>
      if r.end_ < at_time then getTxEndLoop rest at_time volume acc
      else
        let tx_end := at_time + volume / r.val
        if r.end_ < tx_end then
          getTxEndLoop rest r.end_ (volume - r.val * (tx_end - at_time))
            (some tx_end)
        else (some tx_end, 0)

/-- get_tx_end of seg.rs: run the rate loop, then refuse when volume
remains or the tx_end exceeds the deadline (the none accumulator is
Date::MAX, which always exceeds the deadline). -/
def SegmentationManager.get_tx_end (s : SegmentationManager)
    (at_time volume deadline : ℚ) : Option ℚ :=
  match getTxEndLoop s.rate_intervals at_time volume none with
  | (none, _) => none
  | (some te, v) => if 0 < v ∨ deadline < te then none else some te

/-- The transmission data returned by the SEG manager; delay none is the
Duration::MAX sentinel. -/
structure SegTxData where
  tx_start : ℚ
  tx_end : ℚ
  delay : Option ℚ
  expiration : ℚ
  deriving Repr, DecidableEq

/-- The free-interval scan of SegmentationManager::dry_run (seg.rs lines
140-165): first free interval not already over whose span fits the
bundle. -/
def segDryRunLoop (s : SegmentationManager) (at_time : ℚ) (b : Bundle) :
    List (Segment Unit) → Option SegTxData
  | [] => none
  | f :: rest =>
      if f.end_ < at_time then segDryRunLoop s at_time b rest
      else
        let tx_start := max f.start at_time
        match s.get_tx_end tx_start b.size f.end_ with
        | some tx_end =>
            some ⟨tx_start, tx_end,
              SegmentationManager.get_delay tx_end s.delay_intervals, f.end_⟩
        | none => segDryRunLoop s at_time b rest

/-- SegmentationManager::dry_run. -/
def SegmentationManager.dry_run (s : SegmentationManager) (at_time : ℚ)
    (b : Bundle) : Option SegTxData :=
  segDryRunLoop s at_time b s.free_intervals

/-- Result of SegmentationManager::schedule: either a hop plus the updated
manager, or the out-of-bounds panic on free_intervals[index]. -/
inductive SegSchedResult where
  | ok (d : SegTxData) (s : SegmentationManager)
  | crash
  deriving Repr, DecidableEq

/-- The free-interval scan of SegmentationManager::schedule (seg.rs lines
189-199).  tx_start is assigned on every interval whose end is not
already past (and kept when the fit fails); index counts only the
intervals whose fit failed — the intervals skipped by the continue do NOT
advance it, exactly as in the source.  Returns (tx_start, tx_end,
index). -/
def segSchedLoop (s : SegmentationManager) (at_time : ℚ) (b : Bundle) :
    List (Segment Unit) → ℕ → ℚ → ℚ → ℚ × ℚ × ℕ
  | [], idx, txs, txe => (txs, txe, idx)
  | f :: rest, idx, txs, txe =>
      if f.end_ < at_time then segSchedLoop s at_time b rest idx txs txe
      else
        let txs2 := max f.start at_time
        match s.get_tx_end txs2 b.size f.end_ with
        | some te => (txs2, te, idx)
        | none => segSchedLoop s at_time b rest (idx + 1) txs2 txe

/-- SegmentationManager::schedule (seg.rs lines 179-226): run the scan
(tx_start and tx_end start at 0.0), then split free_intervals[index]
around [tx_start, tx_end] and return the hop.  There is no failure
return: when nothing fits, index lands past every examined interval and
the indexing panics (crash) or an unrelated interval is split. -/
def SegmentationManager.schedule (s : SegmentationManager) (at_time : ℚ)
    (b : Bundle) : SegSchedResult :=
  let r := segSchedLoop s at_time b s.free_intervals 0 0 0
  let tx_start := r.1
  let tx_end := r.2.1
  let index := r.2.2
  match s.free_intervals.get? index with
  | none => SegSchedResult.crash
  | some interval =>
      let expiration := interval.end_
      let delay := SegmentationManager.get_delay tx_end s.delay_intervals
      let free2 :=
        if interval.start ≠ tx_start then
          (s.free_intervals.set index ⟨interval.start, tx_start, ()⟩).insertIdx
            (index + 1) ⟨tx_end, expiration, ()⟩
        else
          s.free_intervals.set index ⟨tx_end, interval.end_, ()⟩
      SegSchedResult.ok ⟨tx_start, tx_end, delay, expiration⟩
        { s with free_intervals := free2 }

/-- A well-formed one-segment SEG contact over [0, 10] at rate 1, delay 0
(its free list is what try_init builds for that window). -/
def demoSegMgr : SegmentationManager :=
  ⟨[⟨0, 10, ()⟩], [⟨0, 10, 1⟩], [⟨0, 10, 0⟩]⟩

/-! ## Unicast dry-run and committing traversals (src/routing/mod.rs)

dry_run_unicast_path and update_unicast walk the chain of RouteStage
objects obtained from the forward next_for_destination map: the source's
first hop, then each stage's next stage toward the destination, stopping
with success at the first stage whose to_node is the destination.  The
embedding represents that chain as the list of successive stages.  Each
stage owns its via contact's manager — stages of a committed chain use
pairwise distinct contacts, so a commit at one stage cannot alter another
stage's manager ("no intervening mutation" within the call).  The
traversals are generic over the ContactManager trait; a stage's manager is
any of the repository's concrete implementations (StageMgr below covers
the priority volume managers, the scalar basic managers, and the
SegmentationManager).  Stage evaluation follows RouteStage::dry_run /
RouteStage::schedule of src/route_stage.rs in the default build (node
hooks compiled out). -/

/-- The via contact's manager of a chain stage: any of the repository's
concrete ContactManager implementations — a priority volume manager
(EVL / QD / ETO and their priority variants, with the two macro
booleans), a scalar basic volume manager, or a SegmentationManager. -/
inductive StageMgr where
  | vol (add_delay auto_update : Bool) (m : PrioVolMgr)
  | basic (add_delay auto_update : Bool) (m : BasicVolMgr)
  | seg (m : SegmentationManager)
  deriving Repr, DecidableEq

/-- One stage of a committed unicast chain: the stage's node, its via
contact window, and the via contact's manager. -/
structure ChainStage where
  to_node : ℕ
  info : ContactInfo
  mgr : StageMgr
  deriving Repr, DecidableEq

/-- The manager dispatch inside RouteStage::dry_run: the (tx_end, delay)
pair of the hop the via contact's manager returns, or none.  For the SEG
manager a Duration::MAX delay (no delay segment covers tx_end) makes the
arrival exceed every finite expiration, so the stage refuses either way;
that sentinel is folded into the refusal here. -/
def StageMgr.hop_dry_run :
    StageMgr → ContactInfo → ℚ → Bundle → Option (ℚ × ℚ)
  | .vol ad au m, info, t, b =>
      (m.dry_run_tx ad au info t b).map fun res => (res.tx_end, res.delay)
  | .basic ad _ m, info, t, b =>
      (m.dry_run_tx ad info t b).map fun res => (res.tx_end, res.delay)
  | .seg m, _, t, b =>
      match m.dry_run t b with
      | none => none
      | some res => res.delay.map fun dl => (res.tx_end, dl)

/-- The manager dispatch inside RouteStage::schedule: as hop_dry_run but
committing; for the SEG manager the out-of-bounds panic of schedule is a
refusal of the traversal (update_unicast aborts there as well). -/
def StageMgr.hop_schedule :
    StageMgr → ContactInfo → ℚ → Bundle → Option ((ℚ × ℚ) × StageMgr)
  | .vol ad au m, info, t, b =>
      (m.schedule_tx ad au info t b).map fun p =>
        ((p.1.tx_end, p.1.delay), .vol ad au p.2)
  | .basic ad au m, info, t, b =>
      (m.schedule_tx ad au info t b).map fun p =>
        ((p.1.tx_end, p.1.delay), .basic ad au p.2)
  | .seg m, _, t, b =>
      match m.schedule t b with
      | .crash => none
      | .ok res m2 => res.delay.map fun dl => ((res.tx_end, dl), .seg m2)

/-- RouteStage::dry_run (src/route_stage.rs): manager dry_run at the time
the caller stored in the stage, refuse when arrival (tx_end + delay)
exceeds the bundle expiration, otherwise the stage's new at_time is the
arrival. -/
def ChainStage.dry_run (s : ChainStage) (b : Bundle) (at_time : ℚ) :
    Option ℚ :=
  match s.mgr.hop_dry_run s.info at_time b with
  | none => none
  | some (te, dl) =>
      if b.expiration < te + dl then none else some (te + dl)

/-- RouteStage::schedule (src/route_stage.rs): as dry_run but committing;
the updated stage carries the committed manager.  (The source keeps the
booking when the expiration test fails after the commit; that branch is
failure here as there, and is unreachable after a clean dry run.) -/
def ChainStage.schedule (s : ChainStage) (b : Bundle) (at_time : ℚ) :
    Option (ℚ × ChainStage) :=
  match s.mgr.hop_schedule s.info at_time b with
  | none => none
  | some ((te, dl), m2) =>
      if b.expiration < te + dl then none
      else some (te + dl, { s with mgr := m2 })

/-- The loop of dry_run_unicast_path (src/routing/mod.rs lines 350-393):
thread the at_time through the chain, failing if any stage refuses or the
chain ends before the destination; on success return the per-stage at_time
values. -/
def dry_run_unicast_path (b : Bundle) (dest : ℕ) :
    ℚ → List ChainStage → Option (List ℚ)
  | _, [] => none
  | t, s :: rest =>
      match s.dry_run b t with
      | none => none
      | some t2 =>
          if s.to_node = dest then some [t2]
          else
            match dry_run_unicast_path b dest t2 rest with
            | some ats => some (t2 :: ats)
            | none => none

/-- update_unicast (src/routing/mod.rs lines 443-479).  The three source
abort branches — missing first hop, a stage whose schedule fails, and a
chain that ends before the destination — are all none here; success
returns the per-stage at_time values and the committed chain. -/
def update_unicast (b : Bundle) (dest : ℕ) :
    ℚ → List ChainStage → Option (List ℚ × List ChainStage)
  | _, [] => none
  | t, s :: rest =>
      match s.schedule b t with
      | none => none
      | some (t2, s2) =>
          if s.to_node = dest then some ([t2], s2 :: rest)
          else
            match update_unicast b dest t2 rest with
            | some (ats, rest2) => some (t2 :: ats, s2 :: rest2)
            | none => none

/-- Concrete two-hop chain 0 → 1 → 2, used by the C1 witness: the first
hop over an EVL volume manager, the second over a SegmentationManager. -/
def demoChain : List ChainStage :=
  [⟨1, ⟨0, 1, 0, 10⟩, .vol false true ⟨1, 0, [0], 10⟩⟩,
   ⟨2, ⟨1, 2, 0, 10⟩, .seg demoSegMgr⟩]


/-! ## CGR suppression round-trip
(src/pathfinding/limiting_contact/mod.rs and
src/pathfinding/contact_graph.rs)

The shared per-contact state that the CGR alternative-path wrapper and the
contact-graph pathfinder mutate is the suppressed flag and the work_area
label; a routing call also reads each contact's end.  The contact store is
embedded as a function from contact index to that state (the Rust
structure is a set of shared RefCell contacts addressed by the wrapper's
suppression list and by the inner Dijkstra loop).  The inner Dijkstra loop
of contact_graph::get_next is abstracted by the sequence of work-area
assignments it actually performs — each assignment goes through the code
of lines 172-200, which records the contact in altered_contacts exactly
when its work_area was empty — so the theorem quantifies over every
possible assignment sequence, which includes the one the concrete Dijkstra
run performs. -/

/-- The per-contact shared state: contact end, suppressed flag, work_area
(a route-stage label id, none = empty). -/
structure CContact where
  end_ : ℚ
  suppressed : Bool
  work_area : Option ℕ
  deriving Repr, DecidableEq

/-- Write the suppressed flag of contact i. -/
def setSuppressed (f : ℕ → CContact) (i : ℕ) (v : Bool) : ℕ → CContact :=
  Function.update f i { f i with suppressed := v }

/-- Write the work_area of contact i. -/
def setWorkArea (f : ℕ → CContact) (i : ℕ) (w : Option ℕ) : ℕ → CContact :=
  Function.update f i { f i with work_area := w }

/-- The retain closure of limiting_contact get_next (lines 162-169): walk
the per-destination suppression list; entries whose contact end is before
current_time are dropped, the remaining ones are kept and their contacts
set suppressed = true. -/
def retainAndSuppress (t : ℚ) :
    (ℕ → CContact) → List ℕ → ((ℕ → CContact) × List ℕ)
  | f, [] => (f, [])
  | f, i :: rest =>
      if (f i).end_ < t then retainAndSuppress t f rest
      else
        let p := retainAndSuppress t (setSuppressed f i true) rest
        (p.1, i :: p.2)

/-- One work-area assignment of contact_graph get_next (lines 172-200):
the state is (contact store, altered_contacts); when the contact's
work_area is empty the contact is pushed on altered_contacts, otherwise
the label simply replaces the old one (the not-better case performs no
assignment and so produces no event). -/
def assignWorkArea (st : (ℕ → CContact) × List ℕ) (ev : ℕ × ℕ) :
    (ℕ → CContact) × List ℕ :=
  match (st.1 ev.1).work_area with
  | some _ => (setWorkArea st.1 ev.1 (some ev.2), st.2)
  | none => (setWorkArea st.1 ev.1 (some ev.2), ev.1 :: st.2)

/-- contact_graph get_next as seen from the shared contact state: perform
the assignment events of the Dijkstra loop, then clear the work_area of
every contact recorded in altered_contacts (lines 238-240). -/
def innerPathfinding (f : ℕ → CContact) (events : List (ℕ × ℕ)) :
    ℕ → CContact :=
  let st := events.foldl assignWorkArea (f, [])
  st.2.foldl (fun acc i => setWorkArea acc i none) st.1

/-- get_next of the CGR alternative-path wrapper
(create_new_alternative_path_variant, limiting_contact/mod.rs lines
154-185): retain-and-suppress the destination's suppression list, run the
inner pathfinding, append the new limiting contact (when the tree reached
the destination), then set suppressed = false on every contact of the
resulting list.  Returns the contact store and the suppression list after
the call. -/
def cgr_get_next (f : ℕ → CContact) (supList : List ℕ) (t : ℚ)
    (events : List (ℕ × ℕ)) (newLimiting : Option ℕ) :
    (ℕ → CContact) × List ℕ :=
  let r1 := retainAndSuppress t f supList
  let f2 := innerPathfinding r1.1 events
  let l2 := match newLimiting with
            | some c => r1.2 ++ [c]
            | none => r1.2
  (l2.foldl (fun acc i => setSuppressed acc i false) f2, l2)


/-! ## SPSN multicast pipeline (src/routing/spsn.rs, src/routing/mod.rs)

The pathfinding tree is embedded as an inductive forward tree: each node
is a RouteStage (reusing ChainStage for the stage data) with its child
stages; the forward next_for_destination map of a stage sends destination
d to the child whose subtree contains d, which is how init_route fills it.
The recursive multicast walks group destinations by next stage — here, by
child.  The tree-storage select call and the fresh pathfinding tree are
parameters of the router embedding (SPSN consults them through the
TreeStorage and Pathfinding traits). -/

/-- A pathfinding tree stage: its RouteStage data and its child stages. -/
inductive RouteTree where
  | mk (stage : ChainStage) (children : List RouteTree)

mutual
/-- All stage nodes of a subtree (the domain of the forward maps). -/
def RouteTree.nodesOf : RouteTree → List ℕ
  | .mk s cs => s.to_node :: nodesOfList cs

def nodesOfList : List RouteTree → List ℕ
  | [] => []
  | c :: rest => c.nodesOf ++ nodesOfList rest
end

mutual
/-- rec_dry_run_multicast (src/routing/mod.rs lines 171-215) at a
non-source stage: dry-run the stage at the threaded time; on refusal
prune every destination routed through it; otherwise report the
destinations equal to this stage's node as reached and recurse into each
child with the destinations grouped onto it. -/
def recDryRunMulticast (b : Bundle) (t : ℚ) (reachable : List ℕ) :
    RouteTree → List ℕ
  | .mk s cs =>
      match s.dry_run b t with
      | none => []
      | some t2 =>
          reachable.filter (fun d => decide (d = s.to_node)) ++
            recDryRunChildren b t2 s.to_node reachable cs

def recDryRunChildren (b : Bundle) (t : ℚ) (toNode : ℕ)
    (reachable : List ℕ) : List RouteTree → List ℕ
  | [] => []
  | c :: rest =>
      recDryRunMulticast b t
          (reachable.filter fun d =>
            !decide (d = toNode) && decide (d ∈ c.nodesOf)) c ++
        recDryRunChildren b t toNode reachable rest
end

/-- rec_dry_run_multicast at the source stage (is_source = true: no stage
evaluation, just the reached check and the grouping). -/
def dryRunMulticastRoot (b : Bundle) (t : ℚ) (reachable : List ℕ) :
    RouteTree → List ℕ
  | .mk s cs =>
      reachable.filter (fun d => decide (d = s.to_node)) ++
        recDryRunChildren b t s.to_node reachable cs

mutual
/-- rec_update_multicast (src/routing/mod.rs lines 227-270) at a
non-source stage: schedule the stage; on refusal return leaving the
subtree untouched, otherwise recurse with the committed manager. -/
def recUpdateMulticast (b : Bundle) (t : ℚ) (targets : List ℕ) :
    RouteTree → RouteTree
  | .mk s cs =>
      match s.schedule b t with
      | none => .mk s cs
      | some (t2, s2) =>
          .mk s2 (recUpdateChildren b t2 s.to_node targets cs)

def recUpdateChildren (b : Bundle) (t : ℚ) (toNode : ℕ)
    (targets : List ℕ) : List RouteTree → List RouteTree
  | [] => []
  | c :: rest =>
      recUpdateMulticast b t
          (targets.filter fun d =>
            !decide (d = toNode) && decide (d ∈ c.nodesOf)) c ::
        recUpdateChildren b t toNode targets rest
end

/-- rec_update_multicast at the source stage. -/
def updateMulticastRoot (b : Bundle) (t : ℚ) (targets : List ℕ) :
    RouteTree → RouteTree
  | .mk s cs => .mk s (recUpdateChildren b t s.to_node targets cs)

/-- The multicast RoutingOutput: each first-hop contact (identified by the
source child index) with the reached destinations it carries. -/
structure RoutingOutput where
  first_hops : List (ℕ × List ℕ)

/-- build_multicast_output (src/routing/mod.rs lines 49-71): group the
reached destinations of the source's forward map by first-hop stage;
destinations reaching no first hop produce no entry. -/
def build_multicast_output : RouteTree → List ℕ → RoutingOutput
  | .mk s cs, reached =>
      ⟨(cs.enum.map fun p =>
          (p.1,
            reached.filter fun d =>
              !decide (d = s.to_node) && decide (d ∈ p.2.nodesOf))).filter
        fun e => !e.2.isEmpty⟩

/-- PathFindingOutput as the multicast pipeline reads it: the source tree
and the destinations d for which by_destination[d] is Some. -/
structure PathFindingOutputM where
  source : RouteTree
  reachedDest : List ℕ

/-- dry_run_multicast (src/routing/mod.rs lines 126-155): fill the
reachable-destination list from by_destination, then run the recursive
dry run from the source.  Returns (reachable_destinations,
reached_destinations). -/
def dry_run_multicast (b : Bundle) (at_time : ℚ)
    (tree : PathFindingOutputM) : List ℕ × List ℕ :=
  let reachable := b.destinations.filter fun d => decide (d ∈ tree.reachedDest)
  (reachable, dryRunMulticastRoot b at_time reachable tree.source)

/-- schedule_multicast (src/routing/mod.rs lines 289-313): on a fresh tree
the targets are filled by dry_run_multicast (the source drops that call's
return value and keeps its reachable_destinations out-parameter), then
rec_update_multicast commits and build_multicast_output forms the
result.  Note the return type: there is no failure case. -/
def schedule_multicast (b : Bundle) (curr_time : ℚ)
    (tree : PathFindingOutputM) (targets : List ℕ)
    (dry_run_to_fill_targets : Bool) : RoutingOutput :=
  let targets2 :=
    if dry_run_to_fill_targets then (dry_run_multicast b curr_time tree).1
    else targets
  let updated := updateMulticastRoot b curr_time targets2 tree.source
  build_multicast_output updated targets2

/-- Spsn::route_multicast (src/routing/spsn.rs lines 177-206): on a cache
hit whose reachable set covers every destination, schedule on the cached
tree; otherwise compute a fresh tree (a parameter here), store it, and
schedule on it with a filling dry run.  Every branch returns Some. -/
def route_multicast (b : Bundle) (curr_time : ℚ)
    (sel : Option PathFindingOutputM × Option (List ℕ))
    (freshTree : PathFindingOutputM) : Option RoutingOutput :=
  match sel with
  | (some tree, some reachable_nodes) =>
      if b.destinations.length = reachable_nodes.length then
        some (schedule_multicast b curr_time tree reachable_nodes false)
      else some (schedule_multicast b curr_time freshTree [] true)
  | _ => some (schedule_multicast b curr_time freshTree [] true)

/-- Spsn::route (src/routing/spsn.rs lines 50-62): unicast for exactly one
destination (that arm may return none — guard abort, no tree, expired),
multicast otherwise.  The unicast arm's outcome is a parameter. -/
def spsn_route (b : Bundle) (curr_time : ℚ)
    (sel : Option PathFindingOutputM × Option (List ℕ))
    (freshTree : PathFindingOutputM)
    (unicast_result : Option RoutingOutput) : Option RoutingOutput :=
  if b.destinations.length = 1 then unicast_result
  else route_multicast b curr_time sel freshTree

/-- A fresh pathfinding tree that reached no destination at all. -/
def emptyDemoTree : PathFindingOutputM :=
  ⟨.mk ⟨0, ⟨0, 0, 0, 0⟩, .vol false true ⟨1, 0, [0], 0⟩⟩ [], []⟩

-- ══════════════════════ THEOREMS ══════════════════════

/-- Claim C2: the code, evaluated at a concrete guard state reached through
add_limit.  After a routing failure at size 10 for destination 1 the guard
records the limit 10; the source then aborts a bundle of size 5 (< 10) and
lets a bundle of size 10 (≥ 10) through — the exact opposite of the
claimed behaviour (abort size ≥ L, admit size < L). -/
theorem guard_must_abort_inverted_eval :
    let b10 : Bundle := ⟨0, [1], 0, 10, 100⟩
    let b5 : Bundle := ⟨0, [1], 0, 5, 100⟩
    let g : Guard := Guard.add_limit ⟨false, []⟩ b10 1
    g.getLimit (1, 0) = some 10 ∧
    g.must_abort b10 = false ∧
    g.must_abort b5 = true := by
  refine ⟨?_, ?_, ?_⟩ <;> decide

/-- Claim C5: the code, evaluated after try_init on a freshly constructed
EVL manager (generate_prio_volume_manager with add_delay = false,
auto_update = true, one priority level) for the window [0, 10] at rate 1.
try_init sets the booked volume to the full original volume (10, not 0),
so the very first dry_run_tx at at_time = start for a bundle of size 5
(0 < 5 ≤ 10) returns none instead of a hop with tx_start = 0. -/
theorem evl_try_init_books_full_volume :
    let info : ContactInfo := ⟨0, 1, 0, 10⟩
    let b : Bundle := ⟨0, [1], 0, 5, 100⟩
    let fresh := PrioVolMgr.new 1 0 1
    let r := fresh.try_init info
    r.1 = true ∧
    r.2.original_volume = 10 ∧
    r.2.queue_size = [10] ∧
    r.2.dry_run_tx false true info 0 b = none := by
  norm_num [PrioVolMgr.new, PrioVolMgr.try_init, PrioVolMgr.dry_run_tx]

/-- Claim C8: the code, evaluated at a concrete priority ETO manager
(impl_manual_queue_methods_prio) with booked volume 30 ≥ bundle.size = 20.
dequeue leaves the booked volume at 50 (the source adds the size), not at
the claimed 30 − 20 = 10.  The scalar-queue variant of
impl_struct_conditional_methods subtracts, as the claim describes. -/
theorem prio_dequeue_adds_instead_of_subtracting :
    let b : Bundle := ⟨0, [1], 0, 20, 100⟩
    let m : PrioVolMgr := ⟨1, 0, [30], 100⟩
    let mb : BasicVolMgr := ⟨1, 0, 30, 100⟩
    (m.dequeue b).map PrioVolMgr.queue_size = some [50] ∧
    (m.dequeue b).map PrioVolMgr.queue_size ≠ some [10] ∧
    (mb.dequeue b).map BasicVolMgr.queue_size = some 10 := by
  norm_num [PrioVolMgr.dequeue, BasicVolMgr.dequeue, bumpQueues]

/-- Claim C4 (counterexample): at the spec's own concrete input — window
[0, 100], rate 1, booked 20, bundle size 20 at at_time = 15 — the QD
manager (add_delay = true, auto_update = true) returns tx_start = 20,
whereas the claimed formula max(at_time, info.start) + booked/rate gives
max(15, 0) + 20/1 = 35.  tx_end = 40 and arrival = 40 as the claim's
concrete numbers say. -/
theorem qd_tx_start_formula_counterexample :
    let info : ContactInfo := ⟨0, 1, 0, 100⟩
    let b : Bundle := ⟨0, [1], 0, 20, 1000⟩
    let m : PrioVolMgr := ⟨1, 0, [20], 100⟩
    (m.dry_run_tx true true info 15 b).map TxData.tx_start = some 20 ∧
    (m.dry_run_tx true true info 15 b).map TxData.tx_end = some 40 ∧
    (m.dry_run_tx true true info 15 b).map TxData.arrival = some 40 ∧
    max (15 : ℚ) info.start + b.size / m.rate = 35 ∧
    (m.dry_run_tx true true info 15 b).map TxData.tx_start ≠
      some (max (15 : ℚ) info.start + b.size / m.rate) := by
  norm_num [PrioVolMgr.dry_run_tx]

/-- Claim C4 (amended): for the QD manager (add_delay = true,
auto_update = true) with booked volume b = queue_size[priority] and rate r,
every admitted dry_run_tx returns
tx_start = max(at_time, info.start + b/r) — the queue delay pushes the
earliest transmission opportunity from the contact start, and the start is
then clamped below by at_time. -/
theorem qd_dry_run_tx_start_amended (m : PrioVolMgr) (info : ContactInfo)
    (at_time : ℚ) (bundle : Bundle) (d : TxData)
    (h : m.dry_run_tx true true info at_time bundle = some d) :
    d.tx_start =
      max at_time
        (info.start + m.queue_size.getD bundle.priority 0 / m.rate) := by
  unfold PrioVolMgr.dry_run_tx at h
  simp only [Bool.and_self, Bool.not_true, Bool.false_and, if_true, if_false,
    Bool.false_eq_true, ite_true, ite_false] at h
  split_ifs at h with h1 h2 h3 h4
  all_goals first
    | exact Option.noConfusion h
    | (simp only [Option.some.injEq] at h; subst h;
       first
         | exact (max_eq_right (le_of_lt h2)).symm
         | exact (max_eq_left (not_lt.mp h2)).symm)

/-- Concrete evaluation of the QD dry run at the spec's example input,
shared by the amended C4 witness. -/
theorem qd_dry_run_tx_concrete_eval :
    PrioVolMgr.dry_run_tx true true ⟨1, 0, [20], 100⟩ ⟨0, 1, 0, 100⟩ 15
      ⟨0, [1], 0, 20, 1000⟩ = some ⟨20, 40, 0, 100, 40⟩ := by
  norm_num [PrioVolMgr.dry_run_tx]

/-- Witness for the amended C4 theorem at the spec's concrete input. -/
theorem qd_dry_run_tx_start_amended_witness :
    ∃ d : TxData,
      PrioVolMgr.dry_run_tx true true ⟨1, 0, [20], 100⟩ ⟨0, 1, 0, 100⟩ 15
          ⟨0, [1], 0, 20, 1000⟩ = some d ∧
      d.tx_start =
        max (15 : ℚ)
          ((0 : ℚ) +
            (List.getD ([20] : List ℚ) 0 0) / (1 : ℚ)) :=
  ⟨⟨20, 40, 0, 100, 40⟩, qd_dry_run_tx_concrete_eval,
    qd_dry_run_tx_start_amended ⟨1, 0, [20], 100⟩ ⟨0, 1, 0, 100⟩ 15
      ⟨0, [1], 0, 20, 1000⟩ ⟨20, 40, 0, 100, 40⟩ qd_dry_run_tx_concrete_eval⟩

theorem tryMakeHopLoop_mem (p : ParentStage) (b : Bundle) :
    ∀ (l : List PContact) (i : ℕ) (best : Option (TxData × ℕ)) (fd : TxData)
      (idx : ℕ),
      tryMakeHopLoop p b l i best = some (fd, idx) →
      best = some (fd, idx) ∨ ∃ c ∈ l, c.mgrDryRun p.at_time b = some fd := by
  intro l
  induction l with
  | nil =>
      intro i best fd idx h
      exact Or.inl h
  | cons c rest ih =>
      intro i best fd idx h
      simp only [tryMakeHopLoop] at h
      split_ifs at h with hsup hbrk
      · rcases ih (i + 1) best fd idx h with h1 | ⟨c2, hc2, hm2⟩
        · exact Or.inl h1
        · exact Or.inr ⟨c2, List.mem_cons_of_mem _ hc2, hm2⟩
      · exact Or.inl h
      · cases hm : c.mgrDryRun p.at_time b with
        | none =>
            rw [hm] at h
            rcases ih (i + 1) best fd idx h with h1 | ⟨c2, hc2, hm2⟩
            · exact Or.inl h1
            · exact Or.inr ⟨c2, List.mem_cons_of_mem _ hc2, hm2⟩
        | some hop =>
            rw [hm] at h
            dsimp only at h
            split_ifs at h with hacc
            · rcases ih (i + 1) (some (hop, i)) fd idx h with h1 | ⟨c2, hc2, hm2⟩
              · cases h1
                exact Or.inr ⟨c, List.mem_cons_self _ _, hm⟩
              · exact Or.inr ⟨c2, List.mem_cons_of_mem _ hc2, hm2⟩
            · rcases ih (i + 1) best fd idx h with h1 | ⟨c2, hc2, hm2⟩
              · exact Or.inl h1
              · exact Or.inr ⟨c2, List.mem_cons_of_mem _ hc2, hm2⟩

theorem try_make_hop_candidate_fields
    (first : ℕ) (P : ParentStage) (b : Bundle) (contacts : List PContact)
    (st : CandidateStage)
    (hwf : ∀ c ∈ contacts, ∀ t d, c.mgrDryRun t b = some d →
        t ≤ d.tx_start ∧ d.tx_start ≤ d.tx_end ∧ 0 ≤ d.delay ∧
        d.arrival = d.tx_end + d.delay)
    (h : try_make_hop first P b contacts = some st) :
    ∃ H, (∃ c ∈ contacts, c.mgrDryRun P.at_time b = some H) ∧
      st.at_time = H.arrival ∧ st.at_time = H.tx_end + H.delay ∧
      st.hop_count = P.hop_count + 1 ∧
      st.cumulative_delay = P.cumulative_delay + H.delay ∧
      st.expiration = min P.expiration (H.expiration - P.cumulative_delay) ∧
      P.at_time ≤ st.at_time ∧ st.expiration ≤ P.expiration := by
  unfold try_make_hop at h
  cases hl : tryMakeHopLoop P b (contacts.drop first) first none with
  | none =>
      rw [hl] at h
      exact Option.noConfusion h
  | some pr =>
      obtain ⟨fd, idx⟩ := pr
      rw [hl] at h
      simp only [Option.some.injEq] at h
      subst h
      rcases tryMakeHopLoop_mem P b (contacts.drop first) first none fd idx hl
        with habs | ⟨c, hc, hm⟩
      · exact Option.noConfusion habs
      · have hcmem : c ∈ contacts := List.drop_subset _ _ hc
        obtain ⟨h1, h2, h3, h4⟩ := hwf c hcmem P.at_time fd hm
        refine ⟨fd, ⟨c, hcmem, hm⟩, rfl, h4, rfl, rfl, min_comm _ _, ?_, ?_⟩
        · calc P.at_time ≤ fd.tx_start := h1
            _ ≤ fd.tx_end := h2
            _ ≤ fd.tx_end + fd.delay := le_add_of_nonneg_right h3
            _ = fd.arrival := h4.symm
        · exact min_le_right _ _

theorem demo_contact_wf :
    ∀ c ∈ [demoContact], ∀ t d, c.mgrDryRun t demoBundle = some d →
      t ≤ d.tx_start ∧ d.tx_start ≤ d.tx_end ∧ 0 ≤ d.delay ∧
      d.arrival = d.tx_end + d.delay := by
  intro c hc t d hd
  simp only [List.mem_singleton] at hc
  subst hc
  simp only [demoContact, Option.some.injEq] at hd
  subst hd
  refine ⟨le_refl _, ?_, by norm_num, rfl⟩
  show t ≤ t + 1
  linarith

theorem demo_try_make_hop_eval :
    try_make_hop 0 demoParent demoBundle [demoContact] =
      some ⟨1, 2, 1, 1, 10, 0⟩ := by
  norm_num [try_make_hop, tryMakeHopLoop, demoContact, demoParent, demoBundle]

theorem try_make_hop_candidate_fields_witness :
    ∃ H, (∃ c ∈ [demoContact],
        c.mgrDryRun demoParent.at_time demoBundle = some H) ∧
      (⟨1, 2, 1, 1, 10, 0⟩ : CandidateStage).at_time = H.arrival ∧
      (⟨1, 2, 1, 1, 10, 0⟩ : CandidateStage).at_time = H.tx_end + H.delay ∧
      (⟨1, 2, 1, 1, 10, 0⟩ : CandidateStage).hop_count =
        demoParent.hop_count + 1 ∧
      (⟨1, 2, 1, 1, 10, 0⟩ : CandidateStage).cumulative_delay =
        demoParent.cumulative_delay + H.delay ∧
      (⟨1, 2, 1, 1, 10, 0⟩ : CandidateStage).expiration =
        min demoParent.expiration (H.expiration - demoParent.cumulative_delay) ∧
      demoParent.at_time ≤ (⟨1, 2, 1, 1, 10, 0⟩ : CandidateStage).at_time ∧
      (⟨1, 2, 1, 1, 10, 0⟩ : CandidateStage).expiration ≤
        demoParent.expiration :=
  try_make_hop_candidate_fields 0 demoParent demoBundle [demoContact]
    ⟨1, 2, 1, 1, 10, 0⟩ demo_contact_wf demo_try_make_hop_eval

/-- schedule_tx returns exactly the dry_run_tx data (it is the dry run
plus the commit). -/
theorem schedule_tx_refines_dry_run_tx (ad au : Bool) (m : PrioVolMgr)
    (cd : ContactInfo) (t : ℚ) (b : Bundle) (d : TxData)
    (h : m.dry_run_tx ad au cd t b = some d) :
    ∃ m2, m.schedule_tx ad au cd t b = some (d, m2) := by
  unfold PrioVolMgr.schedule_tx
  rw [h]
  exact ⟨_, rfl⟩

/-- schedule_tx of the basic volume manager also returns exactly the
dry_run_tx data. -/
theorem basic_schedule_tx_refines_dry_run_tx (ad au : Bool)
    (m : BasicVolMgr) (cd : ContactInfo) (t : ℚ) (b : Bundle) (d : TxData)
    (h : m.dry_run_tx ad cd t b = some d) :
    ∃ m2, m.schedule_tx ad au cd t b = some (d, m2) := by
  unfold BasicVolMgr.schedule_tx
  rw [h]
  exact ⟨_, rfl⟩

/-- When the SEG dry-run scan finds a hop, the schedule scan stops at the
same interval with the same tx_start and tx_end, and its index stays
below the number of free intervals (so the indexing after the loop cannot
go out of bounds). -/
theorem segLoop_sched_agree (s : SegmentationManager) (t : ℚ) (b : Bundle) :
    ∀ (l : List (Segment Unit)) (d : SegTxData) (idx : ℕ) (txs txe : ℚ),
      segDryRunLoop s t b l = some d →
      ∃ j, segSchedLoop s t b l idx txs txe = (d.tx_start, d.tx_end, j) ∧
        j < idx + l.length := by
  intro l
  induction l with
  | nil => intro d idx txs txe h; exact Option.noConfusion h
  | cons f rest ih =>
      intro d idx txs txe h
      unfold segDryRunLoop at h
      unfold segSchedLoop
      by_cases hc : f.end_ < t
      · rw [if_pos hc] at h
        rw [if_pos hc]
        obtain ⟨j, hj, hlt⟩ := ih d idx txs txe h
        refine ⟨j, hj, ?_⟩
        simp only [List.length_cons]
        omega
      · rw [if_neg hc] at h
        rw [if_neg hc]
        dsimp only at h ⊢
        cases hg : s.get_tx_end (max f.start t) b.size f.end_ with
        | some te =>
            try rw [hg] at h
            try rw [hg]
            try dsimp only at h
            try dsimp only
            simp only [Option.some.injEq] at h
            subst h
            refine ⟨idx, rfl, ?_⟩
            simp only [List.length_cons]
            omega
        | none =>
            try rw [hg] at h
            try rw [hg]
            try dsimp only at h
            try dsimp only
            obtain ⟨j, hj, hlt⟩ := ih d (idx + 1) (max f.start t) txe h
            refine ⟨j, hj, ?_⟩
            simp only [List.length_cons]
            omega

/-- The delay of a hop found by the SEG dry-run scan is the delay lookup
at its tx_end. -/
theorem segDryRunLoop_delay (s : SegmentationManager) (t : ℚ) (b : Bundle) :
    ∀ (l : List (Segment Unit)) (d : SegTxData),
      segDryRunLoop s t b l = some d →
      d.delay = SegmentationManager.get_delay d.tx_end s.delay_intervals := by
  intro l
  induction l with
  | nil => intro d h; exact Option.noConfusion h
  | cons f rest ih =>
      intro d h
      unfold segDryRunLoop at h
      by_cases hc : f.end_ < t
      · rw [if_pos hc] at h
        exact ih d h
      · rw [if_neg hc] at h
        dsimp only at h
        cases hg : s.get_tx_end (max f.start t) b.size f.end_ with
        | some te =>
            try rw [hg] at h
            try dsimp only at h
            simp only [Option.some.injEq] at h
            subst h
            rfl
        | none =>
            try rw [hg] at h
            try dsimp only at h
            exact ih d h

/-- A successful SEG dry run makes schedule return a hop with the same
tx_end and delay (no panic): the schedule scan stops at the interval the
dry run found, its index is in bounds, and the split succeeds.  (The
split may still mangle the free list when earlier intervals were skipped
— C3's concern — but the returned timing data agrees.) -/
theorem seg_schedule_of_dry_run (s : SegmentationManager) (t : ℚ)
    (b : Bundle) (d : SegTxData) (h : s.dry_run t b = some d) :
    ∃ (d2 : SegTxData) (s2 : SegmentationManager),
      s.schedule t b = SegSchedResult.ok d2 s2 ∧
      d2.tx_end = d.tx_end ∧ d2.delay = d.delay := by
  unfold SegmentationManager.dry_run at h
  obtain ⟨j, hj, hlt⟩ := segLoop_sched_agree s t b s.free_intervals d 0 0 0 h
  have hdl := segDryRunLoop_delay s t b s.free_intervals d h
  have hlt2 : j < s.free_intervals.length := by omega
  unfold SegmentationManager.schedule
  rw [hj]
  dsimp only
  rw [List.get?_eq_get hlt2]
  refine ⟨_, _, rfl, rfl, hdl.symm⟩

/-- A manager whose dry-run dispatch returns a hop schedules the same
(tx_end, delay) pair, for every concrete manager family. -/
theorem StageMgr.hop_schedule_of_dry_run (mg : StageMgr)
    (info : ContactInfo) (t : ℚ) (b : Bundle) (te dl : ℚ)
    (h : mg.hop_dry_run info t b = some (te, dl)) :
    ∃ mg2, mg.hop_schedule info t b = some ((te, dl), mg2) := by
  cases mg with
  | vol ad au m =>
      unfold StageMgr.hop_dry_run at h
      dsimp only at h
      cases hm : m.dry_run_tx ad au info t b with
      | none =>
          try rw [hm] at h
          try simp only [hm] at h
          exact Option.noConfusion h
      | some res =>
          try rw [hm] at h
          try simp only [hm] at h
          simp only [Option.map_some', Option.some.injEq] at h
          obtain ⟨m2, hs⟩ :=
            schedule_tx_refines_dry_run_tx ad au m info t b res hm
          refine ⟨.vol ad au m2, ?_⟩
          unfold StageMgr.hop_schedule
          dsimp only
          rw [hs]
          simp only [Option.map_some', Option.some.injEq]
          rw [h]
  | basic ad au m =>
      unfold StageMgr.hop_dry_run at h
      dsimp only at h
      cases hm : m.dry_run_tx ad info t b with
      | none =>
          try rw [hm] at h
          try simp only [hm] at h
          exact Option.noConfusion h
      | some res =>
          try rw [hm] at h
          try simp only [hm] at h
          simp only [Option.map_some', Option.some.injEq] at h
          obtain ⟨m2, hs⟩ :=
            basic_schedule_tx_refines_dry_run_tx ad au m info t b res hm
          refine ⟨.basic ad au m2, ?_⟩
          unfold StageMgr.hop_schedule
          dsimp only
          rw [hs]
          simp only [Option.map_some', Option.some.injEq]
          rw [h]
  | seg m =>
      unfold StageMgr.hop_dry_run at h
      dsimp only at h
      cases hm : m.dry_run t b with
      | none =>
          try rw [hm] at h
          try simp only [hm] at h
          exact Option.noConfusion h
      | some res =>
          try rw [hm] at h
          try simp only [hm] at h
          try dsimp only at h
          cases hdl : res.delay with
          | none =>
              try rw [hdl] at h
              try simp only [hdl] at h
              exact Option.noConfusion h
          | some dl0 =>
              try rw [hdl] at h
              try simp only [hdl] at h
              simp only [Option.map_some', Option.some.injEq, Prod.mk.injEq]
                at h
              obtain ⟨d2, m2, hs, hte, hd⟩ :=
                seg_schedule_of_dry_run m t b res hm
              refine ⟨.seg m2, ?_⟩
              unfold StageMgr.hop_schedule
              dsimp only
              rw [hs]
              dsimp only
              rw [hd, hdl]
              simp only [Option.map_some', Option.some.injEq, Prod.mk.injEq]
              exact ⟨⟨hte.trans h.1, h.2⟩, trivial⟩

/-- A stage whose dry_run succeeds schedules successfully with the same
resulting at_time, whichever concrete manager backs its via contact. -/
theorem ChainStage.schedule_of_dry_run (s : ChainStage) (b : Bundle)
    (t t2 : ℚ) (h : s.dry_run b t = some t2) :
    ∃ s2, s.schedule b t = some (t2, s2) := by
  unfold ChainStage.dry_run at h
  unfold ChainStage.schedule
  cases hm : s.mgr.hop_dry_run s.info t b with
  | none =>
      rw [hm] at h
      exact Option.noConfusion h
  | some p =>
      obtain ⟨te, dl⟩ := p
      rw [hm] at h
      obtain ⟨mg2, hs⟩ :=
        StageMgr.hop_schedule_of_dry_run s.mgr s.info t b te dl hm
      rw [hs]
      dsimp only at h ⊢
      by_cases he : b.expiration < te + dl
      · rw [if_pos he] at h
        exact Option.noConfusion h
      · rw [if_neg he] at h
        rw [if_neg he]
        simp only [Option.some.injEq] at h
        exact ⟨_, by rw [h]⟩

/-- Claim C1: a chain whose dry-run traversal fully succeeds at time T is
committed successfully by the immediately following update_unicast at the
same T with no intervening mutation: every stage's schedule succeeds (the
panic branches are unreachable) and the per-stage at_time values equal
those the dry run produced. -/
theorem update_unicast_refines_dry_run (b : Bundle) (dest : ℕ) (t : ℚ)
    (chain : List ChainStage) (ats : List ℚ)
    (h : dry_run_unicast_path b dest t chain = some ats) :
    ∃ chain2, update_unicast b dest t chain = some (ats, chain2) := by
  induction chain generalizing t ats with
  | nil => exact Option.noConfusion h
  | cons s rest ih =>
      unfold dry_run_unicast_path at h
      cases hd : s.dry_run b t with
      | none =>
          rw [hd] at h
          exact Option.noConfusion h
      | some t2 =>
          rw [hd] at h
          dsimp only at h
          obtain ⟨s2, hs⟩ := ChainStage.schedule_of_dry_run s b t t2 hd
          unfold update_unicast
          rw [hs]
          dsimp only
          by_cases hdn : s.to_node = dest
          · rw [if_pos hdn] at h ⊢
            simp only [Option.some.injEq] at h
            subst h
            exact ⟨s2 :: rest, rfl⟩
          · rw [if_neg hdn] at h ⊢
            cases hrec : dry_run_unicast_path b dest t2 rest with
            | none =>
                rw [hrec] at h
                exact Option.noConfusion h
            | some ats2 =>
                rw [hrec] at h
                simp only [Option.some.injEq] at h
                subst h
                obtain ⟨chain2, hc⟩ := ih t2 ats2 hrec
                rw [hc]
                exact ⟨s2 :: chain2, rfl⟩

/-- Concrete dry-run evaluation on the demo chain, shared by the C1
witness. -/
theorem demo_chain_dry_run_eval :
    dry_run_unicast_path ⟨0, [2], 0, 1, 100⟩ 2 0 demoChain = some [1, 2] := by
  norm_num [dry_run_unicast_path, demoChain, ChainStage.dry_run,
    StageMgr.hop_dry_run, PrioVolMgr.dry_run_tx, SegmentationManager.dry_run,
    segDryRunLoop, SegmentationManager.get_tx_end, getTxEndLoop,
    SegmentationManager.get_delay, demoSegMgr]

/-- Witness for C1 on the concrete two-hop EVL chain. -/
theorem update_unicast_refines_dry_run_witness :
    ∃ chain2,
      update_unicast ⟨0, [2], 0, 1, 100⟩ 2 0 demoChain =
        some ([1, 2], chain2) :=
  update_unicast_refines_dry_run ⟨0, [2], 0, 1, 100⟩ 2 0 demoChain [1, 2]
    demo_chain_dry_run_eval


/-- The scan of lazy_prune_and_get_first_idx never returns an index below
the starting position. -/
theorem firstViableFrom_ge (l : List ContactInfo) (i : ℕ) (t : ℚ) (j : ℕ)
    (h : firstViableFrom l i t = some j) : i ≤ j := by
  induction l generalizing i with
  | nil => exact Option.noConfusion h
  | cons c rest ih =>
      unfold firstViableFrom at h
      split_ifs at h with hc
      · cases h
        exact le_refl _
      · exact le_trans (Nat.le_succ i) (ih (i + 1) h)

/-- One lazy-prune call never moves the cursor backward, and a returned
index is never below the cursor the call started from. -/
theorem lazy_prune_single_step (r : Receiver) (t : ℚ) :
    r.next ≤ (r.lazy_prune_and_get_first_idx t).1.next ∧
    ∀ i, (r.lazy_prune_and_get_first_idx t).2 = some i → r.next ≤ i := by
  unfold Receiver.lazy_prune_and_get_first_idx
  cases hf : firstViableFrom (r.contacts_to_receiver.drop r.next) r.next t with
  | none => exact ⟨le_refl _, fun i hi => Option.noConfusion hi⟩
  | some j =>
      refine ⟨firstViableFrom_ge _ _ _ _ hf, fun i hi => ?_⟩
      cases hi
      exact firstViableFrom_ge _ _ _ _ hf

/-- Claim C9: across any sequence of lazy_prune_and_get_first_idx calls
with monotonically increasing current_time arguments, the receiver's next
cursor never decreases — each call leaves it unchanged or advances it — and
every returned index is at least the cursor value before its call. -/
theorem lazy_prune_cursor_monotone (r : Receiver) (ts : List ℚ)
    (_hmono : ts.Chain' (· ≤ ·)) :
    (∀ e ∈ pruneCalls r ts,
        e.1 ≤ e.2.1 ∧ ∀ i, e.2.2 = some i → e.1 ≤ i) ∧
    List.Chain' (· ≤ ·)
      (r.next :: (pruneCalls r ts).map fun e => e.2.1) := by
  clear _hmono
  induction ts generalizing r with
  | nil => exact ⟨fun e he => absurd he (List.not_mem_nil e), List.chain'_singleton _⟩
  | cons t ts ih =>
      obtain ⟨hstep, hret⟩ := lazy_prune_single_step r t
      obtain ⟨ih1, ih2⟩ := ih (r.lazy_prune_and_get_first_idx t).1
      constructor
      · intro e he
        rcases List.mem_cons.mp he with h | h
        · subst h
          exact ⟨hstep, hret⟩
        · exact ih1 e h
      · exact List.chain'_cons.mpr ⟨hstep, ih2⟩

/-- Witness for C9: two calls at times 0 then 1 on a one-contact receiver. -/
theorem lazy_prune_cursor_monotone_witness :
    (∀ e ∈ pruneCalls ⟨[⟨0, 1, 0, 10⟩], 0⟩ [0, 1],
        e.1 ≤ e.2.1 ∧ ∀ i, e.2.2 = some i → e.1 ≤ i) ∧
    List.Chain' (· ≤ ·)
      (Receiver.next ⟨[⟨0, 1, 0, 10⟩], 0⟩ ::
        (pruneCalls ⟨[⟨0, 1, 0, 10⟩], 0⟩ [0, 1]).map fun e => e.2.1) :=
  lazy_prune_cursor_monotone ⟨[⟨0, 1, 0, 10⟩], 0⟩ [0, 1]
    (List.chain'_cons.mpr ⟨by decide, List.chain'_singleton _⟩)

/-- For the legacy volume managers the C3 behaviour does hold: when the
dry run refuses, schedule_tx returns none and, returning no updated
manager, leaves the state untouched. -/
theorem prio_schedule_tx_none_of_dry_run_none (ad au : Bool)
    (m : PrioVolMgr) (cd : ContactInfo) (t : ℚ) (b : Bundle)
    (h : m.dry_run_tx ad au cd t b = none) :
    m.schedule_tx ad au cd t b = none := by
  unfold PrioVolMgr.schedule_tx
  rw [h]

/-- Claim C3: the code, evaluated on a SEG contact (free [0,10], rate 1,
delay 0) with a bundle of size 20 that cannot be transmitted within the
contact.  dry_run signals the failure with none, but schedule does not:
its scan leaves index = 1 and free_intervals[1] panics out of bounds —
schedule has no failure return at all, so the claim's "both operations
return none, neither panics" is violated for the SEG model. -/
theorem seg_schedule_panics_on_untransmittable_bundle :
    let b : Bundle := ⟨0, [1], 0, 20, 100⟩
    demoSegMgr.dry_run 0 b = none ∧
    demoSegMgr.schedule 0 b = SegSchedResult.crash := by
  norm_num [SegmentationManager.dry_run, SegmentationManager.schedule,
    segDryRunLoop, segSchedLoop, SegmentationManager.get_tx_end,
    getTxEndLoop, demoSegMgr]

theorem setSuppressed_end (f : ℕ → CContact) (i : ℕ) (v : Bool) (j : ℕ) :
    (setSuppressed f i v j).end_ = (f j).end_ := by
  unfold setSuppressed
  rcases eq_or_ne j i with h | h
  · subst h
    rw [Function.update_same]
  · rw [Function.update_noteq h]

theorem setSuppressed_wa (f : ℕ → CContact) (i : ℕ) (v : Bool) (j : ℕ) :
    (setSuppressed f i v j).work_area = (f j).work_area := by
  unfold setSuppressed
  rcases eq_or_ne j i with h | h
  · subst h
    rw [Function.update_same]
  · rw [Function.update_noteq h]

theorem setSuppressed_supp (f : ℕ → CContact) (i : ℕ) (v : Bool) (j : ℕ)
    (h : (setSuppressed f i v j).suppressed = true) :
    j = i ∨ (f j).suppressed = true := by
  unfold setSuppressed at h
  rcases eq_or_ne j i with he | he
  · exact Or.inl he
  · rw [Function.update_noteq he] at h
    exact Or.inr h

theorem setWorkArea_end (f : ℕ → CContact) (i : ℕ) (w : Option ℕ) (j : ℕ) :
    (setWorkArea f i w j).end_ = (f j).end_ := by
  unfold setWorkArea
  rcases eq_or_ne j i with h | h
  · subst h
    rw [Function.update_same]
  · rw [Function.update_noteq h]

theorem setWorkArea_supp (f : ℕ → CContact) (i : ℕ) (w : Option ℕ) (j : ℕ) :
    (setWorkArea f i w j).suppressed = (f j).suppressed := by
  unfold setWorkArea
  rcases eq_or_ne j i with h | h
  · subst h
    rw [Function.update_same]
  · rw [Function.update_noteq h]

theorem retainAndSuppress_end (t : ℚ) (l : List ℕ) :
    ∀ (f : ℕ → CContact) (j : ℕ),
      ((retainAndSuppress t f l).1 j).end_ = (f j).end_ := by
  induction l with
  | nil => intro f j; rfl
  | cons i rest ih =>
      intro f j
      unfold retainAndSuppress
      split_ifs with hc
      · exact ih f j
      · dsimp only
        rw [ih (setSuppressed f i true) j, setSuppressed_end]

theorem retainAndSuppress_wa (t : ℚ) (l : List ℕ) :
    ∀ (f : ℕ → CContact) (j : ℕ),
      ((retainAndSuppress t f l).1 j).work_area = (f j).work_area := by
  induction l with
  | nil => intro f j; rfl
  | cons i rest ih =>
      intro f j
      unfold retainAndSuppress
      split_ifs with hc
      · exact ih f j
      · dsimp only
        rw [ih (setSuppressed f i true) j, setSuppressed_wa]

theorem retainAndSuppress_list (t : ℚ) (l : List ℕ) :
    ∀ f : ℕ → CContact,
      (retainAndSuppress t f l).2 =
        l.filter fun i => !decide ((f i).end_ < t) := by
  induction l with
  | nil => intro f; rfl
  | cons i rest ih =>
      intro f
      unfold retainAndSuppress
      split_ifs with hc
      · rw [ih f, List.filter_cons]
        simp [hc]
      · dsimp only
        rw [ih (setSuppressed f i true), List.filter_cons]
        simp only [hc, decide_False, Bool.not_false, if_true]
        congr 1
        refine List.filter_congr fun a _ => ?_
        rw [setSuppressed_end]

theorem retainAndSuppress_supp (t : ℚ) (l : List ℕ) :
    ∀ (f : ℕ → CContact) (j : ℕ),
      ((retainAndSuppress t f l).1 j).suppressed = true →
      (f j).suppressed = true ∨ j ∈ (retainAndSuppress t f l).2 := by
  induction l with
  | nil => intro f j h; exact Or.inl h
  | cons i rest ih =>
      intro f j h
      unfold retainAndSuppress at h ⊢
      split_ifs at h ⊢ with hc
      · exact ih f j h
      · dsimp only at h ⊢
        rcases ih (setSuppressed f i true) j h with h2 | h2
        · rcases setSuppressed_supp f i true j h2 with he | he
          · exact Or.inr (he ▸ List.mem_cons_self _ _)
          · exact Or.inl he
        · exact Or.inr (List.mem_cons_of_mem _ h2)

theorem assign_foldl_supp_end (events : List (ℕ × ℕ)) :
    ∀ (st : (ℕ → CContact) × List ℕ) (j : ℕ),
      ((events.foldl assignWorkArea st).1 j).suppressed =
        (st.1 j).suppressed ∧
      ((events.foldl assignWorkArea st).1 j).end_ = (st.1 j).end_ := by
  induction events with
  | nil => intro st j; exact ⟨rfl, rfl⟩
  | cons ev rest ih =>
      intro st j
      rw [List.foldl_cons]
      obtain ⟨h1, h2⟩ := ih (assignWorkArea st ev) j
      constructor
      · rw [h1]
        unfold assignWorkArea
        cases (st.1 ev.1).work_area <;> exact setWorkArea_supp _ _ _ _
      · rw [h2]
        unfold assignWorkArea
        cases (st.1 ev.1).work_area <;> exact setWorkArea_end _ _ _ _

theorem assign_foldl_invariant (events : List (ℕ × ℕ)) :
    ∀ st : (ℕ → CContact) × List ℕ,
      (∀ j, (st.1 j).work_area ≠ none → j ∈ st.2) →
      ∀ j, ((events.foldl assignWorkArea st).1 j).work_area ≠ none →
        j ∈ (events.foldl assignWorkArea st).2 := by
  induction events with
  | nil => intro st h j hj; exact h j hj
  | cons ev rest ih =>
      intro st h j hj
      rw [List.foldl_cons] at hj ⊢
      refine ih (assignWorkArea st ev) ?_ j hj
      intro k hk
      unfold assignWorkArea at hk ⊢
      cases hwa : (st.1 ev.1).work_area with
      | some lab =>
          rw [hwa] at hk
          dsimp only at hk ⊢
          rcases eq_or_ne k ev.1 with he | he
          · subst he
            exact h ev.1 (by simp [hwa])
          · rw [setWorkArea, Function.update_noteq he] at hk
            exact h k hk
      | none =>
          rw [hwa] at hk
          dsimp only at hk ⊢
          rcases eq_or_ne k ev.1 with he | he
          · subst he
            exact List.mem_cons_self _ _
          · rw [setWorkArea, Function.update_noteq he] at hk
            exact List.mem_cons_of_mem _ (h k hk)

theorem clear_wa_preserves (l : List ℕ) :
    ∀ (f : ℕ → CContact) (j : ℕ),
      ((l.foldl (fun acc i => setWorkArea acc i none) f) j).suppressed =
        (f j).suppressed ∧
      ((l.foldl (fun acc i => setWorkArea acc i none) f) j).end_ =
        (f j).end_ := by
  induction l with
  | nil => intro f j; exact ⟨rfl, rfl⟩
  | cons i rest ih =>
      intro f j
      rw [List.foldl_cons]
      obtain ⟨h1, h2⟩ := ih (setWorkArea f i none) j
      exact ⟨by rw [h1, setWorkArea_supp], by rw [h2, setWorkArea_end]⟩

theorem clear_wa_all (l : List ℕ) :
    ∀ f : ℕ → CContact,
      (∀ j, (f j).work_area ≠ none → j ∈ l) →
      ∀ j, ((l.foldl (fun acc i => setWorkArea acc i none) f) j).work_area =
        none := by
  induction l with
  | nil =>
      intro f h j
      by_contra hne
      exact absurd (h j hne) (List.not_mem_nil j)
  | cons i rest ih =>
      intro f h j
      rw [List.foldl_cons]
      refine ih (setWorkArea f i none) ?_ j
      intro k hk
      rcases eq_or_ne k i with he | he
      · subst he
        rw [setWorkArea, Function.update_same] at hk
        exact absurd rfl hk
      · rw [setWorkArea, Function.update_noteq he] at hk
        rcases List.mem_cons.mp (h k hk) with h2 | h2
        · exact absurd h2 he
        · exact h2

theorem innerPathfinding_preserves (f : ℕ → CContact)
    (events : List (ℕ × ℕ)) (j : ℕ) :
    ((innerPathfinding f events) j).suppressed = (f j).suppressed ∧
    ((innerPathfinding f events) j).end_ = (f j).end_ := by
  unfold innerPathfinding
  obtain ⟨c1, c2⟩ := clear_wa_preserves (events.foldl assignWorkArea (f, [])).2
    (events.foldl assignWorkArea (f, [])).1 j
  obtain ⟨a1, a2⟩ := assign_foldl_supp_end events (f, []) j
  exact ⟨by rw [c1, a1], by rw [c2, a2]⟩

theorem innerPathfinding_wa_none (f : ℕ → CContact)
    (events : List (ℕ × ℕ)) (h : ∀ j, (f j).work_area = none) (j : ℕ) :
    ((innerPathfinding f events) j).work_area = none := by
  unfold innerPathfinding
  refine clear_wa_all _ _ ?_ j
  intro k hk
  refine assign_foldl_invariant events (f, []) ?_ k hk
  intro k2 hk2
  exact absurd (h k2) hk2

theorem clear_supp_spec (l : List ℕ) :
    ∀ (f : ℕ → CContact) (j : ℕ),
      (((l.foldl (fun acc i => setSuppressed acc i false) f) j).suppressed =
        true) →
      (f j).suppressed = true ∧ j ∉ l := by
  induction l with
  | nil => intro f j h; exact ⟨h, List.not_mem_nil j⟩
  | cons i rest ih =>
      intro f j h
      rw [List.foldl_cons] at h
      obtain ⟨h1, h2⟩ := ih (setSuppressed f i false) j h
      rcases eq_or_ne j i with he | he
      · subst he
        rw [setSuppressed, Function.update_same] at h1
        dsimp only at h1
        exact Bool.noConfusion h1
      · rw [setSuppressed, Function.update_noteq he] at h1
        refine ⟨h1, fun hmem => ?_⟩
        rcases List.mem_cons.mp hmem with h3 | h3
        · exact he h3
        · exact h2 h3

theorem clear_supp_preserves_wa (l : List ℕ) :
    ∀ (f : ℕ → CContact) (j : ℕ),
      ((l.foldl (fun acc i => setSuppressed acc i false) f) j).work_area =
        (f j).work_area := by
  induction l with
  | nil => intro f j; rfl
  | cons i rest ih =>
      intro f j
      rw [List.foldl_cons, ih (setSuppressed f i false) j, setSuppressed_wa]

/-- Claim C6: after a CGR alternative-path get_next returns on a clean
graph (no contact suppressed, no work_area label), no contact is
suppressed and no contact's work_area holds a label created during the
call; and the suppression list kept by the wrapper is the old list with
the entries whose contact end is before current_time dropped, followed by
the new limiting contact when one was found. -/
theorem cgr_suppression_round_trip (f : ℕ → CContact) (supList : List ℕ)
    (t : ℚ) (events : List (ℕ × ℕ)) (newLimiting : Option ℕ)
    (hclean : ∀ j, (f j).suppressed = false ∧ (f j).work_area = none) :
    (∀ j, ((cgr_get_next f supList t events newLimiting).1 j).suppressed =
        false ∧
      ((cgr_get_next f supList t events newLimiting).1 j).work_area =
        none) ∧
    (cgr_get_next f supList t events newLimiting).2 =
      (supList.filter fun i => !decide ((f i).end_ < t)) ++
        newLimiting.toList := by
  unfold cgr_get_next
  dsimp only
  constructor
  · intro j
    constructor
    · by_contra hsup
      rw [Bool.not_eq_false] at hsup
      obtain ⟨h1, hnotmem⟩ := clear_supp_spec _ _ j hsup
      rw [(innerPathfinding_preserves _ events j).1] at h1
      rcases retainAndSuppress_supp t supList f j h1 with h2 | h2
      · rw [(hclean j).1] at h2
        exact Bool.noConfusion h2
      · refine hnotmem ?_
        cases newLimiting with
        | some c => exact List.mem_append_left _ h2
        | none => exact h2
    · rw [clear_supp_preserves_wa]
      refine innerPathfinding_wa_none _ events (fun k => ?_) j
      rw [retainAndSuppress_wa]
      exact (hclean k).2
  · rw [retainAndSuppress_list]
    cases newLimiting with
    | some c => rfl
    | none => simp

/-- Witness for C6: one clean contact, a one-entry suppression list, one
work-area assignment event, and a new limiting contact. -/
theorem cgr_suppression_round_trip_witness :
    (∀ j, ((cgr_get_next (fun _ => ⟨10, false, none⟩) [0] 5 [(0, 7)]
        (some 0)).1 j).suppressed = false ∧
      ((cgr_get_next (fun _ => ⟨10, false, none⟩) [0] 5 [(0, 7)]
        (some 0)).1 j).work_area = none) ∧
    (cgr_get_next (fun _ => ⟨10, false, none⟩) [0] 5 [(0, 7)]
        (some 0)).2 =
      (([0] : List ℕ).filter fun i =>
        !decide (((fun _ => (⟨10, false, none⟩ : CContact)) i).end_ < 5)) ++
        (some 0).toList :=
  cgr_suppression_round_trip (fun _ => ⟨10, false, none⟩) [0] 5 [(0, 7)]
    (some 0) (fun _ => ⟨rfl, rfl⟩)


/-- Claim C10: for every bundle with two or more destinations, SPSN route
returns Some — route_multicast has no none branch; unreachable
destinations are silently omitted (the first-hop map may be empty). -/
theorem spsn_route_multicast_total (b : Bundle) (curr_time : ℚ)
    (sel : Option PathFindingOutputM × Option (List ℕ))
    (freshTree : PathFindingOutputM) (uni : Option RoutingOutput)
    (h2 : 2 ≤ b.destinations.length) :
    ∃ out, spsn_route b curr_time sel freshTree uni = some out := by
  unfold spsn_route route_multicast
  rw [if_neg (by omega)]
  rcases sel with ⟨tr, re⟩
  cases tr with
  | none => exact ⟨_, rfl⟩
  | some tree =>
      cases re with
      | none => exact ⟨_, rfl⟩
      | some reachable =>
          dsimp only
          by_cases hlen : b.destinations.length = reachable.length
          · rw [if_pos hlen]
            exact ⟨_, rfl⟩
          · rw [if_neg hlen]
            exact ⟨_, rfl⟩

/-- Witness for C10: two destinations, cache miss, a fresh tree that
reaches nothing — route still returns Some (with an empty first-hop
map). -/
theorem spsn_route_multicast_total_witness :
    2 ≤ (Bundle.destinations ⟨0, [1, 2], 0, 1, 100⟩).length ∧
    ∃ out,
      spsn_route ⟨0, [1, 2], 0, 1, 100⟩ 0 (none, none) emptyDemoTree none =
        some out :=
  ⟨by decide,
    spsn_route_multicast_total ⟨0, [1, 2], 0, 1, 100⟩ 0 (none, none)
      emptyDemoTree none (by decide)⟩

/-- On the witness input the returned first-hop map is indeed empty. -/
theorem spsn_route_multicast_empty_output :
    spsn_route ⟨0, [1, 2], 0, 1, 100⟩ 0 (none, none) emptyDemoTree none =
      some ⟨[]⟩ := by
  rfl

end ASabr
